import Mathlib

/-!
Verification of the lint-orchestration and message-reconciliation engine of the
linter repository. The development shallowly embeds:

  - src/lib/editor-linter.coffee : the CoffeeScript document session
    (per-session message map, shared project map, trigger-kind locks,
    scope and run-mode filtering, per-analyzer result collection);
  - src/lib/ui/bottom-panel.js : the view-facing message aggregator
    (message map, visible-message counter, removal-before-addition order);
  - src/unnamed/part_000 : the JavaScript document session
    (constructor validation, destroy and dispose).

External collaborators (the host editor, the atom Emitter, the DOM, the
message-element module) are modelled by their observable contracts: an emitter
is a handler list that a dispose clears, DOM writes are recorded as events, and
the per-analyzer asynchronous invocation is abstracted by its settled outcome
(validated result list, or a caught error). Asynchronous settlement is
serialized in registry order; per-key map results are order-independent for
distinct analyzer identities.
-/

namespace LinterModel

/-! ## Association-list model of a JavaScript Map

JavaScript Map semantics: set replaces the value in place when the key exists
and appends otherwise; delete removes the (unique) entry of the key; get
returns the stored value or undefined. -/

def mapSet {κ α : Type} [DecidableEq κ] : List (κ × α) → κ → α → List (κ × α)
  | [], k, v => [(k, v)]
  | (k1, v1) :: rest, k, v =>
      if k1 = k then (k, v) :: rest else (k1, v1) :: mapSet rest k v

def mapGet {κ α : Type} [DecidableEq κ] : List (κ × α) → κ → Option α
  | [], _ => none
  | (k1, v1) :: rest, k => if k1 = k then some v1 else mapGet rest k

def mapDelete {κ α : Type} [DecidableEq κ] : List (κ × α) → κ → List (κ × α)
  | [], _ => []
  | (k1, v1) :: rest, k => if k1 = k then rest else (k1, v1) :: mapDelete rest k

/-! ## Data model of the lint run

A diagnostic is the opaque payload produced by one analyzer; the claims only
move diagnostic lists around, so it carries its text. An analyzer mirrors a
registered linter provider of editor-linter.coffee: its identity, the run-mode
flag lintOnFly (none models an undefined property), the declared grammar
scopes, and the result scope (the string "project" selects the shared map). -/

structure Diagnostic where
  text : String
deriving DecidableEq

structure Analyzer where
  id : Nat
  lintOnFly : Option Bool
  grammarScopes : List String
  scope : String
deriving DecidableEq

/-- Outcome of one analyzer invocation composed with result validation: either
the validated diagnostic list, or the caught error with message and stack. The
validation helper lives outside the embedded core, so the settled outcome is a
parameter of a run. -/
inductive Outcome where
  | ok (results : List Diagnostic)
  | err (message stack : String)
deriving DecidableEq

def Outcome.isErr : Outcome → Bool
  | .ok _ => false
  | .err _ _ => true

/-- Results written for an outcome: the validated list on success, the empty
list for a caught failure (the catch handler of editor-linter.coffee lines
65-67 returns the empty array). -/
def resultsOf : Outcome → List Diagnostic
  | .ok results => results
  | .err _ _ => []

/-- Observable events of one run: the error notification raised by the catch
handler (message plus detail), the did-update emission, and the view render
request. -/
inductive Event where
  | notifyError (message detail : String)
  | didUpdate
  | render
deriving DecidableEq

def notifyOf : Outcome → List Event
  | .ok _ => []
  | .err m s => [.notifyError m s]

def countNotify (evs : List Event) : Nat :=
  (evs.filter fun e => match e with | .notifyError _ _ => true | _ => false).length

/-- Message maps touched by a run: the message map owned by the session, and
the project-level map shared across sessions, both keyed by analyzer
identity. -/
structure Maps where
  session : List (Nat × List Diagnostic)
  project : List (Nat × List Diagnostic)
deriving DecidableEq

/-! ## Run-mode and scope filtering (editor-linter.coffee, lint and lint-batch) -/

/-- Run-mode filter of the batch builder (editor-linter.coffee lines 58-59):
the check runs only when the global lint-on-the-fly toggle is on, and then
skips the analyzer when the trigger kind differs from the lintOnFly property
of the analyzer under a strict inequality, so an analyzer whose property is
undefined is always skipped there. With the toggle off the check is bypassed
and every analyzer is admitted by this filter. -/
def modeAdmits (globalLintOnFly wasTriggeredOnChange : Bool) (a : Analyzer) : Bool :=
  if globalLintOnFly then
    match a.lintOnFly with
    | some b => wasTriggeredOnChange == b
    | none => false
  else true

/-- Run-mode filter as the specification words it: an analyzer restricted to
one mode runs exactly on triggers of that kind, an unrestricted analyzer runs
on both kinds, independently of the global toggle. Stated only to be compared
against the filter embedded from the source. -/
def specModeAdmits (wasTriggeredOnChange : Bool) (a : Analyzer) : Bool :=
  match a.lintOnFly with
  | some b => wasTriggeredOnChange == b
  | none => true

/-- Scope filter of the batch builder (editor-linter.coffee line 61): keep the
analyzer when some entry of the current scope list is among its declared
grammar scopes. -/
def scopeAdmits (scopes : List String) (a : Analyzer) : Bool :=
  scopes.any fun entry => a.grammarScopes.contains entry

/-- Scope list computed at lint entry (editor-linter.coffee lines 48-49): the
scope descriptor tags of the cursor position with the wildcard tag pushed at
the end to allow global linters. -/
def scopesWithWildcard (docScopes : List String) : List String :=
  docScopes ++ ["*"]

/-- Analyzers surviving both filters, in registry order; the batch builder
creates one promise per surviving analyzer. -/
def applicable (globalLintOnFly wasTriggeredOnChange : Bool) (docScopes : List String)
    (regi : List Analyzer) : List Analyzer :=
  regi.filter fun a =>
    modeAdmits globalLintOnFly wasTriggeredOnChange a
      && scopeAdmits (scopesWithWildcard docScopes) a

/-! ## Result collection (editor-linter.coffee lines 63-73)

Each promise chain catches its own failure (one error notification, empty
result list), then writes the settled results keyed by the analyzer identity
into the project map when the result scope is the string "project" and into
the session map otherwise, emits did-update, and requests a render exactly
when the session editor is the active editor at settlement time. Editors are
identified by numbers; e is the session editor and ae the active one. -/

def settleOne (e ae : Nat) (a : Analyzer) (o : Outcome) (m : Maps) : Maps × List Event :=
  let results := resultsOf o
  let m2 :=
    if a.scope = "project" then { m with project := mapSet m.project a.id results }
    else { m with session := mapSet m.session a.id results }
  (m2, notifyOf o ++ [Event.didUpdate] ++ (if e = ae then [Event.render] else []))

/-- Settlement of a whole batch, serialized in registry order; outcome gives
the settled invocation outcome of each analyzer identity for this run. -/
def runBatch (e ae : Nat) : List Analyzer → (Nat → Outcome) → Maps → Maps × List Event
  | [], _, m => (m, [])
  | a :: rest, outcome, m =>
      let r := settleOne e ae a (outcome a.id) m
      let rr := runBatch e ae rest outcome r.1
      (rr.1, r.2 ++ rr.2)

/-- Map entry that a settlement of the given analyzer targets: the project map
for a project-scoped analyzer, the session map otherwise. -/
def entryGet (a : Analyzer) (m : Maps) : Option (List Diagnostic) :=
  if a.scope = "project" then mapGet m.project a.id else mapGet m.session a.id

/-! ## CoffeeScript session state (src/lib/editor-linter.coffee)

The session owns the message maps, the lock fields, the emitter with its
did-destroy handlers, and the subscription set. The lock accessor compiles
from CoffeeScript as key = (wasTriggeredOnChange is non-null, so key is the
boolean itself); the bracket access then reads or writes the object property
named by the boolean, `propTrue` or `propFalse` here, which starts undefined
(modelled as none). The `inProgress` fields are assigned in the constructor
and never accessed again by the compiled accessor. -/

structure CoffeeState where
  maps : Maps
  propTrue : Option Bool
  propFalse : Option Bool
  inProgress : Bool
  inProgressFly : Bool
  destroyHandlers : List Nat
  subsDisposed : Bool
  delivered : List Nat
deriving DecidableEq

def initCoffee : CoffeeState :=
  { maps := ⟨[], []⟩, propTrue := none, propFalse := none,
    inProgress := false, inProgressFly := false,
    destroyHandlers := [], subsDisposed := false, delivered := [] }

def lockGet (st : CoffeeState) (kind : Bool) : Option Bool :=
  if kind then st.propTrue else st.propFalse

def lockSet (st : CoffeeState) (kind : Bool) (v : Bool) : CoffeeState :=
  if kind then { st with propTrue := some v } else { st with propFalse := some v }

/-- Truthiness of the lock read at lint entry: undefined and false are falsy,
true is truthy. -/
def truthyOpt : Option Bool → Bool
  | some true => true
  | _ => false

/-- Actions performed by a lint call before any settlement: a read of the lock
of the trigger kind, and the scheduling of one invocation per surviving
analyzer. -/
inductive LintAction where
  | readLock (kind : Bool)
  | invoke (id : Nat)
deriving DecidableEq

structure LintStartResult where
  state : CoffeeState
  actions : List LintAction
  started : Bool
deriving DecidableEq

/-- Entry of the lint method (editor-linter.coffee lines 44-52): return at once
when the session editor is not the active editor; otherwise read the lock of
the trigger kind and return when it is truthy; otherwise compute the scope
list and fan out the surviving analyzers. No code path writes the lock here:
the only lock write of the file sets it to false after the whole batch has
settled. -/
def lintStart (e ae : Nat) (globalLintOnFly : Bool) (docScopes : List String)
    (regi : List Analyzer) (st : CoffeeState) (kind : Bool) : LintStartResult :=
  if e = ae then
    if truthyOpt (lockGet st kind) then ⟨st, [.readLock kind], false⟩
    else
      ⟨st,
        .readLock kind ::
          ((applicable globalLintOnFly kind docScopes regi).map fun a => .invoke a.id),
        true⟩
  else ⟨st, [], false⟩

/-- Release step run when the batch promise settles: write false into the lock
of the trigger kind. -/
def lintFinish (st : CoffeeState) (kind : Bool) : CoffeeState :=
  lockSet st kind false

/-- Session with the in-flight run counters made explicit, one per trigger
kind, to state the mutual-exclusion claim: a start event increments the
counter of its kind exactly when the lint entry passed both gates, and a
finish event decrements it. -/
structure Sys where
  st : CoffeeState
  inFlightFly : Nat
  inFlightSave : Nat
deriving DecidableEq

inductive RunEv where
  | start (kind : Bool)
  | finish (kind : Bool)
deriving DecidableEq

def stepSys (e ae : Nat) (globalLintOnFly : Bool) (docScopes : List String)
    (regi : List Analyzer) (s : Sys) : RunEv → Sys
  | .start kind =>
      let r := lintStart e ae globalLintOnFly docScopes regi s.st kind
      if r.started then
        if kind then { s with st := r.state, inFlightFly := s.inFlightFly + 1 }
        else { s with st := r.state, inFlightSave := s.inFlightSave + 1 }
      else { s with st := r.state }
  | .finish kind =>
      if kind then
        if s.inFlightFly = 0 then s
        else { s with st := lintFinish s.st kind, inFlightFly := s.inFlightFly - 1 }
      else
        if s.inFlightSave = 0 then s
        else { s with st := lintFinish s.st kind, inFlightSave := s.inFlightSave - 1 }

def runSys (e ae : Nat) (globalLintOnFly : Bool) (docScopes : List String)
    (regi : List Analyzer) (s : Sys) (evs : List RunEv) : Sys :=
  evs.foldl (stepSys e ae globalLintOnFly docScopes regi) s

/-! ## Destroy of the CoffeeScript session (editor-linter.coffee lines 34-36)

The destroy method emits did-destroy and then disposes the subscription set.
The emitter itself is never disposed, so an emission always delivers to every
handler currently registered through onDidDestroy; delivered logs those
deliveries. -/

def onDidDestroyC (st : CoffeeState) (h : Nat) : CoffeeState :=
  { st with destroyHandlers := st.destroyHandlers ++ [h] }

def emitDidDestroyC (st : CoffeeState) : CoffeeState :=
  { st with delivered := st.delivered ++ st.destroyHandlers }

def destroyCoffee (st : CoffeeState) : CoffeeState :=
  { emitDidDestroyC st with subsDisposed := true }

/-! ## JavaScript session (src/unnamed/part_000)

The constructor validates its argument before creating any state: a value that
is not a text editor makes it throw, so no session exists for it. The destroy
method emits did-destroy and calls dispose, which clears the marker tables,
removes the gutter, disposes the subscription set, clears the message set and
disposes the emitter; a disposed emitter delivers nothing on later
emissions. Markers and the gutter are external view resources and are elided;
the remaining fields mirror the source. -/

inductive EditorHandle where
  | textEditor (id : Nat)
  | notEditor (tag : Nat)
deriving DecidableEq

def isTextEditor : EditorHandle → Bool
  | .textEditor _ => true
  | .notEditor _ => false

structure JSession where
  editorId : Nat
  destroyHandlers : List Nat
  emitterDisposed : Bool
  subsDisposed : Bool
  subscriptions : List String
  messagesJ : List Nat
  delivered : List Nat
deriving DecidableEq

/-- Lifecycle subscriptions taken by the constructor of the JavaScript
session, in source order. -/
def constructorSubscriptions : List String :=
  ["underlineIssues", "onDidDestroy", "onDidSave", "onDidChangeCursorPosition",
   "gutterEnabled", "gutterPosition", "didMessageAdd", "didMessageRemove"]

def newEditorLinter : EditorHandle → Except String JSession
  | .textEditor i =>
      .ok { editorId := i, destroyHandlers := [], emitterDisposed := false,
            subsDisposed := false, subscriptions := constructorSubscriptions,
            messagesJ := [], delivered := [] }
  | .notEditor _ => .error "Given editor is not really an editor"

def onDidDestroyJ (s : JSession) (h : Nat) : JSession :=
  { s with destroyHandlers := s.destroyHandlers ++ [h] }

def emitDidDestroyJ (s : JSession) : JSession :=
  if s.emitterDisposed then s
  else { s with delivered := s.delivered ++ s.destroyHandlers }

def disposeJ (s : JSession) : JSession :=
  { s with subsDisposed := true, messagesJ := [],
           emitterDisposed := true, destroyHandlers := [] }

def destroyJ (s : JSession) : JSession :=
  disposeJ (emitDidDestroyJ s)

/-! ## Bottom panel (src/lib/ui/bottom-panel.js)

The panel tracks messages in a JavaScript Map from message to its element and
keeps a visible-message counter. The element type of the companion
message-element module is not part of the sources; modelled from the spec: an
element stores the visibility status of its message, and updateVisibility
recomputes that status under a scope through the visibility predicate and
returns it. DOM writes are recorded as events. The message type and the
visibility predicate are parameters. -/

structure Elem where
  status : Bool
deriving DecidableEq

structure PanelState (Msg : Type) where
  scope : String
  entries : List (Msg × Elem)
  visibleMessages : Int
deriving DecidableEq

inductive PanelEv (Msg : Type) where
  | removeChild (m : Msg)
  | appendChild (m : Msg)
deriving DecidableEq

def mkPanel {Msg : Type} (scope : String) : PanelState Msg :=
  ⟨scope, [], 0⟩

/-- Removal of one message (bottom-panel.js lines 93-101): when tracked, remove
the element from the DOM, delete the map entry, and decrement the counter when
the stored status of the element is true. -/
def removeOne {Msg : Type} [DecidableEq Msg] (st : PanelState Msg) (m : Msg) :
    PanelState Msg × List (PanelEv Msg) :=
  match mapGet st.entries m with
  | some e =>
      ({ st with entries := mapDelete st.entries m,
                 visibleMessages := st.visibleMessages - (if e.status then 1 else 0) },
       [.removeChild m])
  | none => (st, [])

def removeMessages {Msg : Type} [DecidableEq Msg] :
    PanelState Msg → List Msg → PanelState Msg × List (PanelEv Msg)
  | st, [] => (st, [])
  | st, m :: rest =>
      let r := removeOne st m
      let rr := removeMessages r.1 rest
      (rr.1, r.2 ++ rr.2)

/-- Addition of one message (bottom-panel.js lines 71-78): build the element,
append it to the DOM, set the map entry, and increment the counter when the
visibility status computed under the current scope is true. -/
def addOne {Msg : Type} [DecidableEq Msg] (vis : Msg → String → Bool)
    (st : PanelState Msg) (m : Msg) : PanelState Msg × List (PanelEv Msg) :=
  let e : Elem := ⟨vis m st.scope⟩
  ({ st with entries := mapSet st.entries m e,
             visibleMessages := st.visibleMessages + (if e.status then 1 else 0) },
   [.appendChild m])

def addMessages {Msg : Type} [DecidableEq Msg] (vis : Msg → String → Bool) :
    PanelState Msg → List Msg → PanelState Msg × List (PanelEv Msg)
  | st, [] => (st, [])
  | st, m :: rest =>
      let r := addOne vis st m
      let rr := addMessages vis r.1 rest
      (rr.1, r.2 ++ rr.2)

/-- Combined update (bottom-panel.js lines 67-81): process the removed set
first when it is non-empty, then process every addition. -/
def setMessages {Msg : Type} [DecidableEq Msg] (vis : Msg → String → Bool)
    (st : PanelState Msg) (added removed : List Msg) :
    PanelState Msg × List (PanelEv Msg) :=
  let r := if removed.isEmpty then (st, []) else removeMessages st removed
  let a := addMessages vis r.1 added
  (a.1, r.2 ++ a.2)

/-- Refresh (bottom-panel.js lines 53-66): a truthy scope argument replaces the
stored scope, a missing one falls back to it; the counter is rebuilt from
scratch while every element recomputes its status under the scope. -/
def refresh {Msg : Type} (vis : Msg → String → Bool) (st : PanelState Msg)
    (scopeArg : Option String) : PanelState Msg :=
  let truthyArg := match scopeArg with | some s => !s.isEmpty | none => false
  let scope := if truthyArg then scopeArg.getD st.scope else st.scope
  let entries := st.entries.map fun p => (p.1, Elem.mk (vis p.1 scope))
  { scope := scope, entries := entries,
    visibleMessages := ((entries.filter fun p => p.2.status).length : Int) }

inductive PanelOp (Msg : Type) where
  | set (added removed : List Msg)
  | remove (removed : List Msg)
  | refreshScope (scopeArg : Option String)
deriving DecidableEq

def applyOp {Msg : Type} [DecidableEq Msg] (vis : Msg → String → Bool)
    (st : PanelState Msg) : PanelOp Msg → PanelState Msg
  | .set added removed => (setMessages vis st added removed).1
  | .remove removed => (removeMessages st removed).1
  | .refreshScope scopeArg => refresh vis st scopeArg

def applyOps {Msg : Type} [DecidableEq Msg] (vis : Msg → String → Bool)
    (st : PanelState Msg) : List (PanelOp Msg) → PanelState Msg
  | [] => st
  | op :: ops => applyOps vis (applyOp vis st op) ops

/-- Well-formed call: the added messages of a set call are pairwise distinct
and none of them is still tracked once the removals of the same call have been
processed. The differ that feeds setMessages guarantees this shape. -/
def wfOp {Msg : Type} [DecidableEq Msg] (st : PanelState Msg) : PanelOp Msg → Bool
  | .set added removed =>
      let mid := if removed.isEmpty then st else (removeMessages st removed).1
      decide added.Nodup && added.all fun m => (mapGet mid.entries m).isNone
  | .remove _ => true
  | .refreshScope _ => true

def wfOps {Msg : Type} [DecidableEq Msg] (vis : Msg → String → Bool)
    (st : PanelState Msg) : List (PanelOp Msg) → Bool
  | [] => true
  | op :: ops => wfOp st op && wfOps vis (applyOp vis st op) ops

/-- Number of tracked entries whose stored status is true. -/
def statusCount {Msg : Type} (entries : List (Msg × Elem)) : Nat :=
  (entries.filter fun p => p.2.status).length

/-- Panel invariant: the tracked keys are pairwise distinct, every stored
status equals the visibility of its message under the current scope, and the
counter equals the number of entries with a true status. -/
def PanelInv {Msg : Type} (vis : Msg → String → Bool) (st : PanelState Msg) : Prop :=
  (st.entries.map Prod.fst).Nodup
    ∧ (∀ p ∈ st.entries, p.2.status = vis p.1 st.scope)
    ∧ st.visibleMessages = (statusCount st.entries : Int)

/-- Visibility predicate for the concrete panel fixtures: everything is
visible. -/
def visAll : Nat → String → Bool := fun _ _ => true

/-- Visibility predicate for the concrete panel fixtures: even messages are
visible. -/
def visEven : Nat → String → Bool := fun m _ => m % 2 == 0

/-- Operation sequence adding the same message twice without removing it in
between. -/
def opsDup : List (PanelOp Nat) := [.set [5] [], .set [5] []]

/-- Well-formed operation sequence used by the panel witness. -/
def opsW : List (PanelOp Nat) :=
  [.set [1, 2] [], .remove [1], .refreshScope (some "other"), .set [4] [2]]

/-! ## Concrete fixtures used by witnesses and counterexamples -/

def flyOnlyAnalyzer : Analyzer := ⟨0, some true, ["*"], "file"⟩

def unrestrictedAnalyzer : Analyzer := ⟨1, none, ["*"], "file"⟩

def m0 : Maps := ⟨[], []⟩

def regi3 : List Analyzer := [⟨0, none, ["*"], "file"⟩, ⟨1, none, ["*"], "project"⟩]

def outcome3 : Nat → Outcome :=
  fun i => if i = 0 then .err "boom" "trace" else .ok [⟨"warning"⟩]

def regi5 : List Analyzer :=
  [⟨0, none, ["source.js"], "file"⟩, ⟨1, none, ["source.py"], "file"⟩]

def analyzerB : Analyzer := ⟨1, none, ["source.py"], "file"⟩

def m5 : Maps := ⟨[(1, [⟨"old"⟩])], []⟩

def outcome0 : Nat → Outcome := fun _ => .ok []

/-! ## Supporting lemmas for the run scheduler and the sessions -/

theorem mapGet_set_self {κ α : Type} [DecidableEq κ] (l : List (κ × α)) (k : κ) (v : α) :
    mapGet (mapSet l k v) k = some v := by
  induction l with
  | nil => simp [mapSet, mapGet]
  | cons hd tl ih =>
      by_cases h : hd.1 = k
      · simp [mapSet, mapGet, h]
      · simp [mapSet, mapGet, h, ih]

theorem mapGet_set_ne {κ α : Type} [DecidableEq κ] (l : List (κ × α)) (k k1 : κ) (v : α)
    (h : k ≠ k1) : mapGet (mapSet l k v) k1 = mapGet l k1 := by
  induction l with
  | nil => simp [mapSet, mapGet, h]
  | cons hd tl ih =>
      by_cases h1 : hd.1 = k
      · simp [mapSet, mapGet, h1, h]
      · simp only [mapSet, mapGet, h1, if_neg h1, ite_false]
        by_cases h2 : hd.1 = k1
        · simp [mapGet, h2]
        · simp [mapGet, h2, ih]

theorem mapGet_eq_none_iff {κ α : Type} [DecidableEq κ] (l : List (κ × α)) (k : κ) :
    mapGet l k = none ↔ k ∉ l.map Prod.fst := by
  induction l with
  | nil => simp [mapGet]
  | cons hd tl ih =>
      by_cases h : hd.1 = k
      · simp [mapGet, h]
      · simp only [mapGet, h, ite_false, if_neg h, ih, List.map_cons, List.mem_cons]
        constructor
        · intro hn hk
          rcases hk with hk | hk
          · exact h hk.symm
          · exact hn hk
        · intro hn hk
          exact hn (Or.inr hk)

theorem mapSet_of_not_mem {κ α : Type} [DecidableEq κ] (l : List (κ × α)) (k : κ) (v : α)
    (h : mapGet l k = none) : mapSet l k v = l ++ [(k, v)] := by
  induction l with
  | nil => simp [mapSet]
  | cons hd tl ih =>
      by_cases h1 : hd.1 = k
      · simp [mapGet, h1] at h
      · simp [mapGet, h1] at h
        simp [mapSet, h1, ih h]

theorem settleOne_entry (e ae : Nat) (a : Analyzer) (o : Outcome) (m : Maps) :
    entryGet a (settleOne e ae a o m).1 = some (resultsOf o) := by
  by_cases h : a.scope = "project" <;>
    simp [settleOne, entryGet, h, mapGet_set_self]

theorem settleOne_frame (e ae : Nat) (a : Analyzer) (o : Outcome) (m : Maps) (k : Nat)
    (h : a.id ≠ k) :
    mapGet (settleOne e ae a o m).1.session k = mapGet m.session k
      ∧ mapGet (settleOne e ae a o m).1.project k = mapGet m.project k := by
  by_cases hs : a.scope = "project" <;>
    simp [settleOne, hs, mapGet_set_ne _ _ _ _ h]

theorem runBatch_frame (e ae : Nat) (as : List Analyzer) (outcome : Nat → Outcome)
    (m : Maps) (k : Nat) (h : ∀ a ∈ as, a.id ≠ k) :
    mapGet (runBatch e ae as outcome m).1.session k = mapGet m.session k
      ∧ mapGet (runBatch e ae as outcome m).1.project k = mapGet m.project k := by
  induction as generalizing m with
  | nil => simp [runBatch]
  | cons a rest ih =>
      have ha := settleOne_frame e ae a (outcome a.id) m k (h a (List.mem_cons_self a rest))
      have hr := ih (settleOne e ae a (outcome a.id) m).1
        (fun b hb => h b (List.mem_cons_of_mem a hb))
      simp only [runBatch]
      exact ⟨hr.1.trans ha.1, hr.2.trans ha.2⟩

theorem runBatch_entry (e ae : Nat) (as : List Analyzer) (outcome : Nat → Outcome)
    (m : Maps) (hnd : (as.map fun a => a.id).Nodup) :
    ∀ a ∈ as, entryGet a (runBatch e ae as outcome m).1 = some (resultsOf (outcome a.id)) := by
  induction as generalizing m with
  | nil => intro a ha; simp at ha
  | cons hd rest ih =>
      intro a ha
      simp only [List.map_cons, List.nodup_cons] at hnd
      rcases List.mem_cons.mp ha with rfl | ha2
      · have hids : ∀ b ∈ rest, b.id ≠ a.id := by
          intro b hb hba
          exact hnd.1 (hba ▸ List.mem_map_of_mem (fun x => x.id) hb)
        have hfr := runBatch_frame e ae rest outcome
          (settleOne e ae a (outcome a.id) m).1 a.id hids
        have hset := settleOne_entry e ae a (outcome a.id) m
        simp only [runBatch]
        unfold entryGet at hset ⊢
        by_cases hs : a.scope = "project"
        · simp only [hs, if_pos] at hset ⊢
          exact hfr.2.trans hset
        · simp only [hs, if_neg hs] at hset ⊢
          exact hfr.1.trans hset
      · simp only [runBatch]
        exact ih _ hnd.2 a ha2

theorem countNotify_append (l1 l2 : List Event) :
    countNotify (l1 ++ l2) = countNotify l1 + countNotify l2 := by
  simp [countNotify, List.filter_append]

theorem countNotify_settleOne (e ae : Nat) (a : Analyzer) (o : Outcome) (m : Maps) :
    countNotify (settleOne e ae a o m).2 = if o.isErr then 1 else 0 := by
  cases o <;> by_cases h : e = ae <;>
    simp [settleOne, notifyOf, countNotify, Outcome.isErr, h]

theorem countNotify_runBatch (e ae : Nat) (as : List Analyzer) (outcome : Nat → Outcome)
    (m : Maps) :
    countNotify (runBatch e ae as outcome m).2
      = (as.filter fun a => (outcome a.id).isErr).length := by
  induction as generalizing m with
  | nil => simp [runBatch, countNotify]
  | cons a rest ih =>
      simp only [runBatch, countNotify_append, countNotify_settleOne, ih, List.filter_cons]
      by_cases h : (outcome a.id).isErr <;> simp [h, Nat.add_comm]

/-- Second destroy of the JavaScript session is a no-op: the emitter was
disposed by the first, so the repeated emission delivers nothing and dispose
is idempotent on the remaining fields. -/
theorem destroyJ_idempotent (s : JSession) : destroyJ (destroyJ s) = destroyJ s := by
  simp [destroyJ, disposeJ, emitDidDestroyJ]

/-! ## Claim theorems for the run scheduler and result collector -/

/-- Claim C1, failing-input evaluation: the claim states that while a run of
one trigger kind is in flight, a further lint call of that kind is a no-op and
the lock keeps at most one such run in flight. The code reads the lock at lint
entry but no code path ever sets it to true, so a second change-kind start
issued while the first run is still unfinished passes the gate: two change
runs are in flight at once, and the session state shows no lock was ever
acquired. -/
theorem c1_overlapping_same_kind_runs :
    (runSys 0 0 true [] [] ⟨initCoffee, 0, 0⟩ [RunEv.start true, RunEv.start true]).inFlightFly
        = 2
      ∧ (runSys 0 0 true [] [] ⟨initCoffee, 0, 0⟩
          [RunEv.start true, RunEv.start true]).st = initCoffee := by
  decide

/-- Claim C2, counterexample: the run-mode filter embedded from the source
disagrees with the claim. With the global toggle off, a save trigger admits an
analyzer restricted to on-the-fly mode, because the mode check is bypassed
entirely; and with the toggle on, a change trigger rejects an analyzer with no
run-mode restriction, because the strict inequality against an undefined
property always fires. The predicate written from the words of the
specification differs at both inputs. -/
theorem c2_counterexample :
    modeAdmits false false flyOnlyAnalyzer = true
      ∧ specModeAdmits false flyOnlyAnalyzer = false
      ∧ modeAdmits true true unrestrictedAnalyzer = false
      ∧ specModeAdmits true unrestrictedAnalyzer = true := by
  decide

/-- Claim C2 (amended): the run-mode filter depends on the global
lint-on-the-fly toggle. When the toggle is off it admits every analyzer; when
the toggle is on it admits an analyzer carrying a run-mode flag exactly when
the flag equals the trigger kind, and never admits an analyzer without the
flag. -/
theorem c2_run_mode_filter_amended (trig : Bool) (a : Analyzer) :
    modeAdmits false trig a = true
      ∧ modeAdmits true trig a
          = (match a.lintOnFly with | some b => trig == b | none => false) := by
  cases h : a.lintOnFly <;> simp [modeAdmits, h]

/-- Claim C3: a failing analyzer in a batch is caught locally. Over any batch
of surviving analyzers with pairwise distinct identities, the number of error
notifications equals the number of failing analyzers (exactly one per
failure), and every analyzer of the batch, failing or not, ends with its
settled result written at its own key: the validated list on success and the
empty list on a caught failure (resultsOf of an error is the empty list), so
sibling analyzers keep their results and the batch settles. -/
theorem c3_analyzer_failure_isolated (e ae : Nat) (glob trig : Bool)
    (docScopes : List String) (regi : List Analyzer) (outcome : Nat → Outcome) (m : Maps)
    (hnd : ((applicable glob trig docScopes regi).map fun a => a.id).Nodup) :
    countNotify (runBatch e ae (applicable glob trig docScopes regi) outcome m).2
        = ((applicable glob trig docScopes regi).filter fun a => (outcome a.id).isErr).length
      ∧ ∀ a ∈ applicable glob trig docScopes regi,
          entryGet a (runBatch e ae (applicable glob trig docScopes regi) outcome m).1
            = some (resultsOf (outcome a.id)) :=
  ⟨countNotify_runBatch e ae (applicable glob trig docScopes regi) outcome m,
   runBatch_entry e ae (applicable glob trig docScopes regi) outcome m hnd⟩

/-- Claim C3 witness: a concrete batch of two unrestricted analyzers where the
first throws and the second succeeds; one notification is emitted, the failing
analyzer records the empty list at its key and the sibling records its
diagnostics. -/
theorem c3_witness :
    ((applicable false false [] regi3).map fun a => a.id).Nodup
      ∧ (countNotify (runBatch 0 0 (applicable false false [] regi3) outcome3 m0).2
            = ((applicable false false [] regi3).filter fun a => (outcome3 a.id).isErr).length
          ∧ ∀ a ∈ applicable false false [] regi3,
              entryGet a (runBatch 0 0 (applicable false false [] regi3) outcome3 m0).1
                = some (resultsOf (outcome3 a.id))) :=
  ⟨by decide, c3_analyzer_failure_isolated 0 0 false false [] regi3 outcome3 m0 (by decide)⟩

/-- Claim C4: a settlement writes the result at the analyzer identity into the
shared project map when the analyzer is project-scoped and into the session
map otherwise, leaving the other map untouched; a did-update notification
fires, and a render is requested exactly when the session editor is the active
editor. -/
theorem c4_settlement_routing (e ae : Nat) (a : Analyzer) (o : Outcome) (m : Maps) :
    (if a.scope = "project" then
        mapGet (settleOne e ae a o m).1.project a.id = some (resultsOf o)
          ∧ (settleOne e ae a o m).1.session = m.session
      else
        mapGet (settleOne e ae a o m).1.session a.id = some (resultsOf o)
          ∧ (settleOne e ae a o m).1.project = m.project)
      ∧ Event.didUpdate ∈ (settleOne e ae a o m).2
      ∧ (Event.render ∈ (settleOne e ae a o m).2 ↔ e = ae) := by
  refine ⟨?_, ?_, ?_⟩
  · by_cases h : a.scope = "project" <;> simp [settleOne, h, mapGet_set_self]
  · cases o <;> by_cases h : e = ae <;> simp [settleOne, notifyOf, h]
  · cases o <;> by_cases h : e = ae <;> simp [settleOne, notifyOf, h]

/-- Claim C4 witness: the routing theorem evaluated at a concrete
project-scoped analyzer settling with one diagnostic on the active editor. -/
theorem c4_witness :
    (if (Analyzer.mk 2 none ["*"] "project").scope = "project" then
        mapGet (settleOne 1 1 (Analyzer.mk 2 none ["*"] "project")
            (Outcome.ok [⟨"x"⟩]) m0).1.project (Analyzer.mk 2 none ["*"] "project").id
          = some (resultsOf (Outcome.ok [⟨"x"⟩]))
          ∧ (settleOne 1 1 (Analyzer.mk 2 none ["*"] "project")
              (Outcome.ok [⟨"x"⟩]) m0).1.session = m0.session
      else
        mapGet (settleOne 1 1 (Analyzer.mk 2 none ["*"] "project")
            (Outcome.ok [⟨"x"⟩]) m0).1.session (Analyzer.mk 2 none ["*"] "project").id
          = some (resultsOf (Outcome.ok [⟨"x"⟩]))
          ∧ (settleOne 1 1 (Analyzer.mk 2 none ["*"] "project")
              (Outcome.ok [⟨"x"⟩]) m0).1.project = m0.project)
      ∧ Event.didUpdate ∈ (settleOne 1 1 (Analyzer.mk 2 none ["*"] "project")
          (Outcome.ok [⟨"x"⟩]) m0).2
      ∧ (Event.render ∈ (settleOne 1 1 (Analyzer.mk 2 none ["*"] "project")
          (Outcome.ok [⟨"x"⟩]) m0).2 ↔ (1 : Nat) = 1) :=
  c4_settlement_routing 1 1 (Analyzer.mk 2 none ["*"] "project") (Outcome.ok [⟨"x"⟩]) m0

/-- Claim C5: every analyzer surviving the batch filter has a declared grammar
scope among the document scope tags extended with the wildcard tag; an
analyzer admitting none of those tags is not invoked, and over a registry with
pairwise distinct identities its entries in the session map and in the project
map are unchanged by the whole run. -/
theorem c5_scope_filter (e ae : Nat) (glob trig : Bool) (docScopes : List String)
    (regi : List Analyzer) (outcome : Nat → Outcome) (m : Maps) (b : Analyzer)
    (hnd : (regi.map fun a => a.id).Nodup) (hb : b ∈ regi)
    (hscope : scopeAdmits (scopesWithWildcard docScopes) b = false) :
    (∀ a ∈ applicable glob trig docScopes regi,
        scopeAdmits (scopesWithWildcard docScopes) a = true)
      ∧ b ∉ applicable glob trig docScopes regi
      ∧ mapGet (runBatch e ae (applicable glob trig docScopes regi) outcome m).1.session b.id
          = mapGet m.session b.id
      ∧ mapGet (runBatch e ae (applicable glob trig docScopes regi) outcome m).1.project b.id
          = mapGet m.project b.id := by
  have hadm : ∀ a ∈ applicable glob trig docScopes regi,
      scopeAdmits (scopesWithWildcard docScopes) a = true := by
    intro a ha
    have h2 := (List.mem_filter.mp ha).2
    simp only [Bool.and_eq_true] at h2
    exact h2.2
  have hsub : ∀ a ∈ applicable glob trig docScopes regi, a ∈ regi := by
    intro a ha
    exact (List.mem_filter.mp ha).1
  have hnotb : b ∉ applicable glob trig docScopes regi := by
    intro hmem
    rw [hadm b hmem] at hscope
    simp at hscope
  have hids : ∀ a ∈ applicable glob trig docScopes regi, a.id ≠ b.id := by
    intro a ha heq
    have hab : a = b := List.inj_on_of_nodup_map hnd (hsub a ha) hb heq
    exact hnotb (hab ▸ ha)
  have hfr := runBatch_frame e ae (applicable glob trig docScopes regi) outcome m b.id hids
  exact ⟨hadm, hnotb, hfr.1, hfr.2⟩

/-- Claim C5 witness: a registry of two analyzers with disjoint declared
scopes; a run whose document tags match only the first never invokes the
second and leaves the previous entry of the second untouched in both maps. -/
theorem c5_witness :
    (regi5.map fun a => a.id).Nodup
      ∧ analyzerB ∈ regi5
      ∧ scopeAdmits (scopesWithWildcard ["source.js"]) analyzerB = false
      ∧ ((∀ a ∈ applicable false false ["source.js"] regi5,
            scopeAdmits (scopesWithWildcard ["source.js"]) a = true)
          ∧ analyzerB ∉ applicable false false ["source.js"] regi5
          ∧ mapGet (runBatch 0 0 (applicable false false ["source.js"] regi5)
                outcome0 m5).1.session analyzerB.id = mapGet m5.session analyzerB.id
          ∧ mapGet (runBatch 0 0 (applicable false false ["source.js"] regi5)
                outcome0 m5).1.project analyzerB.id = mapGet m5.project analyzerB.id) :=
  ⟨by decide, by decide, by decide,
   c5_scope_filter 0 0 false false ["source.js"] regi5 outcome0 m5 analyzerB
     (by decide) (by decide) (by decide)⟩

/-- Claim C8, failing-input evaluation: the claim states the destroy
notification is delivered exactly once and a repeated destroy is a no-op. For
the CoffeeScript session the emitter is never disposed, so a second destroy
call emits did-destroy again to the still-registered handler: after two
destroy calls on a session with one handler the delivery log holds two
entries, where the claim allows one. The JavaScript session of part_000
disposes its emitter and is idempotent, as destroyJ_idempotent shows. -/
theorem c8_double_destroy_reemits :
    (destroyCoffee (destroyCoffee (onDidDestroyC initCoffee 7))).delivered = [7, 7] := by
  decide

/-- Claim C9: constructing a session over a value that is not a text editor
fails with the constructor error and yields no session, while construction
over any text editor succeeds. -/
theorem c9_constructor_validates :
    (∀ i : Nat, ∃ s : JSession, newEditorLinter (EditorHandle.textEditor i) = Except.ok s)
      ∧ ∀ t : Nat, newEditorLinter (EditorHandle.notEditor t)
          = Except.error "Given editor is not really an editor" := by
  exact ⟨fun i => ⟨_, rfl⟩, fun t => rfl⟩

/-- Claim C10: a lint call on a session whose editor is not the active editor
returns at once: the state, including both message maps and the lock
properties, is unchanged, no action is performed (no lock read or write, no
analyzer invocation), and no run starts. -/
theorem c10_inactive_editor_noop (e ae : Nat) (glob : Bool) (docScopes : List String)
    (regi : List Analyzer) (st : CoffeeState) (kind : Bool) (h : e ≠ ae) :
    lintStart e ae glob docScopes regi st kind = ⟨st, [], false⟩ := by
  simp [lintStart, h]

/-- Claim C10 witness: the no-op theorem evaluated on a session whose editor
differs from the active one. -/
theorem c10_witness :
    (0 : Nat) ≠ 1
      ∧ lintStart 0 1 true [] [] initCoffee true = ⟨initCoffee, [], false⟩ :=
  ⟨by decide, c10_inactive_editor_noop 0 1 true [] [] initCoffee true (by decide)⟩

/-! ## Panel lemmas -/

theorem map_fst_mapDelete {κ α : Type} [DecidableEq κ] (l : List (κ × α)) (k : κ) :
    (mapDelete l k).map Prod.fst = (l.map Prod.fst).erase k := by
  induction l with
  | nil => simp [mapDelete]
  | cons hd tl ih =>
      by_cases h : hd.1 = k
      · simp [mapDelete, h, List.erase_cons]
      · simp [mapDelete, h, List.erase_cons, ih]

theorem mem_of_mem_mapDelete {κ α : Type} [DecidableEq κ] {l : List (κ × α)} {k : κ}
    {p : κ × α} (hp : p ∈ mapDelete l k) : p ∈ l := by
  induction l with
  | nil => simp [mapDelete] at hp
  | cons hd tl ih =>
      by_cases h : hd.1 = k
      · simp only [mapDelete, h, ite_true, if_pos h] at hp
        exact List.mem_cons_of_mem hd hp
      · simp only [mapDelete, if_neg h, List.mem_cons] at hp
        rcases hp with hp | hp
        · exact hp ▸ List.mem_cons_self hd tl
        · exact List.mem_cons_of_mem hd (ih hp)

theorem statusCount_cons {Msg : Type} (p : Msg × Elem) (l : List (Msg × Elem)) :
    statusCount (p :: l) = (if p.2.status then 1 else 0) + statusCount l := by
  by_cases h : p.2.status <;> simp [statusCount, List.filter_cons, h, Nat.add_comm]

theorem statusCount_append {Msg : Type} (l1 l2 : List (Msg × Elem)) :
    statusCount (l1 ++ l2) = statusCount l1 + statusCount l2 := by
  simp [statusCount, List.filter_append]

theorem statusCount_mapDelete {Msg : Type} [DecidableEq Msg] (l : List (Msg × Elem))
    (k : Msg) (e : Elem) (h : mapGet l k = some e) :
    statusCount l = statusCount (mapDelete l k) + (if e.status then 1 else 0) := by
  induction l with
  | nil => simp [mapGet] at h
  | cons hd tl ih =>
      obtain ⟨k1, v1⟩ := hd
      by_cases h1 : k1 = k
      · simp only [mapGet, if_pos h1] at h
        have he : v1 = e := by injection h
        subst he
        simp [mapDelete, h1, statusCount_cons, Nat.add_comm]
      · simp only [mapGet, if_neg h1] at h
        simp only [mapDelete, if_neg h1]
        rw [statusCount_cons, statusCount_cons, ih h]
        omega

theorem removeOne_inv {Msg : Type} [DecidableEq Msg] (vis : Msg → String → Bool)
    (st : PanelState Msg) (m : Msg) (hinv : PanelInv vis st) :
    PanelInv vis (removeOne st m).1 := by
  rcases hinv with ⟨hnd, hst, hct⟩
  unfold removeOne
  cases hg : mapGet st.entries m with
  | none => exact ⟨hnd, hst, hct⟩
  | some e =>
      refine ⟨?_, ?_, ?_⟩
      · simpa [map_fst_mapDelete] using hnd.erase m
      · intro p hp
        exact hst p (mem_of_mem_mapDelete hp)
      · show st.visibleMessages - _ = _
        rw [hct, statusCount_mapDelete st.entries m e hg]
        cases hes : e.status <;> simp [hes]

theorem removeMessages_inv {Msg : Type} [DecidableEq Msg] (vis : Msg → String → Bool)
    (removed : List Msg) (st : PanelState Msg) (hinv : PanelInv vis st) :
    PanelInv vis (removeMessages st removed).1 := by
  induction removed generalizing st with
  | nil => exact hinv
  | cons m rest ih =>
      exact ih (removeOne st m).1 (removeOne_inv vis st m hinv)

theorem addOne_entries {Msg : Type} [DecidableEq Msg] (vis : Msg → String → Bool)
    (st : PanelState Msg) (m : Msg) (h : mapGet st.entries m = none) :
    (addOne vis st m).1.entries = st.entries ++ [(m, Elem.mk (vis m st.scope))] := by
  simp [addOne, mapSet_of_not_mem st.entries m _ h]

theorem addMessages_inv {Msg : Type} [DecidableEq Msg] (vis : Msg → String → Bool)
    (added : List Msg) (st : PanelState Msg) (hinv : PanelInv vis st)
    (hnd : added.Nodup) (habs : ∀ m ∈ added, mapGet st.entries m = none) :
    PanelInv vis (addMessages vis st added).1 := by
  induction added generalizing st with
  | nil => exact hinv
  | cons m rest ih =>
      rcases hinv with ⟨hk, hst, hct⟩
      have hm : mapGet st.entries m = none := habs m (List.mem_cons_self m rest)
      have hmk : m ∉ st.entries.map Prod.fst := (mapGet_eq_none_iff st.entries m).mp hm
      have hent := addOne_entries vis st m hm
      simp only [List.nodup_cons] at hnd
      have hinv2 : PanelInv vis (addOne vis st m).1 := by
        refine ⟨?_, ?_, ?_⟩
        · rw [hent]
          simp only [List.map_append, List.map_cons, List.map_nil]
          rw [List.nodup_append]
          exact ⟨hk, List.nodup_singleton m, by simpa using hmk⟩
        · intro p hp
          rw [hent] at hp
          rcases List.mem_append.mp hp with hp | hp
          · exact hst p hp
          · simp at hp
            subst hp
            rfl
        · show st.visibleMessages + _ = _
          rw [hent, statusCount_append, statusCount_cons, hct]
          have hnilc : statusCount ([] : List (Msg × Elem)) = 0 := rfl
          rw [hnilc]
          cases hes : vis m st.scope <;> simp [hes]
      have habs2 : ∀ m2 ∈ rest, mapGet (addOne vis st m).1.entries m2 = none := by
        intro m2 hm2
        have hne : m ≠ m2 := fun he => hnd.1 (he ▸ hm2)
        show mapGet (mapSet st.entries m _) m2 = none
        rw [mapGet_set_ne st.entries m m2 _ hne]
        exact habs m2 (List.mem_cons_of_mem m hm2)
      exact ih (addOne vis st m).1 hinv2 hnd.2 habs2

theorem refresh_inv {Msg : Type} [DecidableEq Msg] (vis : Msg → String → Bool)
    (st : PanelState Msg) (scopeArg : Option String) (hinv : PanelInv vis st) :
    PanelInv vis (refresh vis st scopeArg) := by
  rcases hinv with ⟨hk, _, _⟩
  refine ⟨?_, ?_, ?_⟩
  · simpa [refresh, List.map_map, Function.comp_def] using hk
  · intro p hp
    simp only [refresh, List.mem_map] at hp
    rcases hp with ⟨q, _, rfl⟩
    rfl
  · rfl

theorem setMessages_inv {Msg : Type} [DecidableEq Msg] (vis : Msg → String → Bool)
    (st : PanelState Msg) (added removed : List Msg) (hinv : PanelInv vis st)
    (hwf : wfOp st (.set added removed) = true) :
    PanelInv vis (setMessages vis st added removed).1 := by
  simp only [wfOp, Bool.and_eq_true, decide_eq_true_eq, List.all_eq_true,
    Option.isNone_iff_eq_none] at hwf
  have hmidinv : PanelInv vis (if removed.isEmpty then (st, ([] : List (PanelEv Msg)))
      else removeMessages st removed).1 := by
    by_cases h : removed.isEmpty
    · simpa [h] using hinv
    · simpa [h] using removeMessages_inv vis removed st hinv
  have habs : ∀ m ∈ added,
      mapGet (if removed.isEmpty then (st, ([] : List (PanelEv Msg)))
        else removeMessages st removed).1.entries m = none := by
    intro m hm
    by_cases h : removed.isEmpty
    · simpa [h] using hwf.2 m hm
    · simpa [h] using hwf.2 m hm
  exact addMessages_inv vis added _ hmidinv hwf.1 habs

theorem applyOps_inv {Msg : Type} [DecidableEq Msg] (vis : Msg → String → Bool)
    (ops : List (PanelOp Msg)) (st : PanelState Msg) (hinv : PanelInv vis st)
    (hwf : wfOps vis st ops = true) : PanelInv vis (applyOps vis st ops) := by
  induction ops generalizing st with
  | nil => exact hinv
  | cons op rest ih =>
      simp only [wfOps, Bool.and_eq_true] at hwf
      have hstep : PanelInv vis (applyOp vis st op) := by
        cases op with
        | set added removed => exact setMessages_inv vis st added removed hinv hwf.1
        | remove removed => exact removeMessages_inv vis removed st hinv
        | refreshScope scopeArg => exact refresh_inv vis st scopeArg hinv
      exact ih (applyOp vis st op) hstep hwf.2

theorem mkPanel_inv {Msg : Type} (vis : Msg → String → Bool) (scope0 : String) :
    PanelInv vis (mkPanel scope0 : PanelState Msg) := by
  refine ⟨List.nodup_nil, ?_, rfl⟩
  intro p hp
  simp [mkPanel] at hp

theorem removeMessages_trace_shape {Msg : Type} [DecidableEq Msg]
    (removed : List Msg) (st : PanelState Msg) :
    ∀ e ∈ (removeMessages st removed).2, ∃ m, e = PanelEv.removeChild m := by
  induction removed generalizing st with
  | nil => intro e he; simp [removeMessages] at he
  | cons m rest ih =>
      intro e he
      simp only [removeMessages, List.mem_append] at he
      rcases he with he | he
      · unfold removeOne at he
        cases hg : mapGet st.entries m with
        | none => rw [hg] at he; simp at he
        | some el =>
            rw [hg] at he
            simp at he
            exact ⟨m, he⟩
      · exact ih (removeOne st m).1 e he

theorem addMessages_trace_shape {Msg : Type} [DecidableEq Msg]
    (vis : Msg → String → Bool) (added : List Msg) (st : PanelState Msg) :
    ∀ e ∈ (addMessages vis st added).2, ∃ m, e = PanelEv.appendChild m := by
  induction added generalizing st with
  | nil => intro e he; simp [addMessages] at he
  | cons m rest ih =>
      intro e he
      simp only [addMessages, List.mem_append] at he
      rcases he with he | he
      · simp [addOne] at he
        exact ⟨m, he⟩
      · exact ih (addOne vis st m).1 e he

/-! ## Claim theorems for the bottom panel -/

/-- Claim C6: a setMessages call processes every removal before any addition:
its event trace splits as a prefix of removals followed by a suffix of
additions, so when a diagnostic changes identity and appears in both sets, the
old entry leaves the panel before the new one enters. -/
theorem c6_removals_processed_first {Msg : Type} [DecidableEq Msg]
    (vis : Msg → String → Bool) (st : PanelState Msg) (added removed : List Msg) :
    ∃ rTr aTr, (setMessages vis st added removed).2 = rTr ++ aTr
      ∧ (∀ e ∈ rTr, ∃ m, e = PanelEv.removeChild m)
      ∧ (∀ e ∈ aTr, ∃ m, e = PanelEv.appendChild m) := by
  refine ⟨(if removed.isEmpty then (st, ([] : List (PanelEv Msg)))
            else removeMessages st removed).2,
          (addMessages vis (if removed.isEmpty then (st, ([] : List (PanelEv Msg)))
            else removeMessages st removed).1 added).2, rfl, ?_, ?_⟩
  · by_cases h : removed.isEmpty
    · simp [h]
    · simpa [h] using removeMessages_trace_shape removed st
  · exact addMessages_trace_shape vis added _

/-- Claim C6 witness: the split evaluated at a concrete panel update that
moves one message and adds another. -/
theorem c6_witness :
    ∃ rTr aTr,
      (setMessages visAll (applyOps visAll (mkPanel "src") opsDup) [3, 5] [5]).2
          = rTr ++ aTr
        ∧ (∀ e ∈ rTr, ∃ m, e = PanelEv.removeChild m)
        ∧ (∀ e ∈ aTr, ∃ m, e = PanelEv.appendChild m) :=
  c6_removals_processed_first visAll (applyOps visAll (mkPanel "src") opsDup) [3, 5] [5]

/-- Claim C7, counterexample: the claim quantifies over every sequence of
setMessages, removeMessages and refresh calls, but a setMessages call whose
added set holds a message already tracked overwrites the map entry while
incrementing the counter a second time: after adding the same always-visible
message twice the counter is two although one tracked message is visible, so
the stated equality fails. -/
theorem c7_counterexample :
    (applyOps visAll (mkPanel "src") opsDup).visibleMessages
      ≠ (((applyOps visAll (mkPanel "src") opsDup).entries.filter
            fun p => visAll p.1 (applyOps visAll (mkPanel "src") opsDup).scope).length
          : Int) := by
  decide

/-- Claim C7 (amended): over every sequence of setMessages, removeMessages and
refresh calls starting from a fresh panel, in which the added set of each
setMessages call is duplicate-free and disjoint from the messages still
tracked after that call removes its removed set, the visible counter equals
the number of tracked messages whose visibility under the current scope is
true: an added message that is immediately filtered out contributes zero, and
removing an untracked or invisible message never decrements. -/
theorem c7_visible_counter_amended {Msg : Type} [DecidableEq Msg]
    (vis : Msg → String → Bool) (scope0 : String) (ops : List (PanelOp Msg))
    (hwf : wfOps vis (mkPanel scope0) ops = true) :
    (applyOps vis (mkPanel scope0) ops).visibleMessages
      = (((applyOps vis (mkPanel scope0) ops).entries.filter
            fun p => vis p.1 (applyOps vis (mkPanel scope0) ops).scope).length : Int) := by
  have hinv := applyOps_inv vis ops (mkPanel scope0) (mkPanel_inv vis scope0) hwf
  rcases hinv with ⟨_, hst, hct⟩
  rw [hct]
  unfold statusCount
  congr 1
  exact congrArg List.length (List.filter_congr hst)

/-- Claim C7 witness: the amended counter equality evaluated on a concrete
well-formed sequence that adds, removes, rescopes and re-adds messages under
the even-visibility predicate. -/
theorem c7_witness :
    wfOps visEven (mkPanel "src") opsW = true
      ∧ (applyOps visEven (mkPanel "src") opsW).visibleMessages
          = (((applyOps visEven (mkPanel "src") opsW).entries.filter
                fun p => visEven p.1 (applyOps visEven (mkPanel "src") opsW).scope).length
              : Int) :=
  ⟨by decide, c7_visible_counter_amended visEven "src" opsW (by decide)⟩

end LinterModel
